import Mathlib

/-!
Verification of the per-URL outreach pipeline of `ai_agent.py`
(URL normalizer, page fetcher, signal extractor, message generator,
and the orchestrating `main` loop).

Python strings are modelled as `List Char` (`Str`); `None` becomes
`Option.none`; functions that catch all exceptions are modelled as total
functions returning the value of the `except` branch on the failing paths.
-/

/-- A Python `str`, modelled as a list of characters. -/
abbrev Str := List Char

/-- The whitespace characters recognised by Python's `str.strip()` and the
`\s` regex class (ASCII fragment). -/
def isSpace (c : Char) : Bool :=
  c == ' ' || c == '\t' || c == '\n' || c == '\x0d' || c == '\x0b' || c == '\x0c'

/-- Remove trailing whitespace (the right half of Python `str.strip()`). -/
def dropTrailWs : Str → Str
  | [] => []
  | c :: cs =>
    let r := dropTrailWs cs
    if r = [] && isSpace c then [] else c :: r

/-- Python `url.strip()`: remove leading and trailing whitespace. -/
def pyStrip (s : Str) : Str :=
  dropTrailWs (s.dropWhile isSpace)

/-- Python `url.startswith(('http://', 'https://'))`. -/
def startsHttp (s : Str) : Bool :=
  List.isPrefixOf "http://".toList s || List.isPrefixOf "https://".toList s

/-- `clean_url` from `ai_agent.py`: strip whitespace and prepend `https://`
when the string does not already start with `http://` or `https://`. -/
def clean_url (url : Str) : Str :=
  let u := pyStrip url
  if startsHttp u then u else "https://".toList ++ u

/-- The scheme-prefixing step shared by `clean_url` and `extract_domain`. -/
def addScheme (u : Str) : Str :=
  if startsHttp u then u else "https://".toList ++ u

-- Basic lemmas about the strip helpers.

theorem dropTrailWs_nil : dropTrailWs [] = [] := rfl

theorem dropTrailWs_append (l₁ l₂ : Str) :
    dropTrailWs (l₁ ++ l₂) =
      if dropTrailWs l₂ = [] then dropTrailWs l₁ else l₁ ++ dropTrailWs l₂ := by
  induction l₁ with
  | nil =>
    by_cases h : dropTrailWs l₂ = [] <;> simp [h, dropTrailWs_nil]
  | cons c cs ih =>
    by_cases h : dropTrailWs l₂ = []
    · simp only [h, if_true] at ih ⊢
      simp [dropTrailWs, ih]
    · simp only [h, if_false] at ih ⊢
      show dropTrailWs (c :: (cs ++ l₂)) = c :: (cs ++ dropTrailWs l₂)
      have hne : cs ++ dropTrailWs l₂ ≠ [] := by
        intro hc
        rcases List.append_eq_nil.mp hc with ⟨-, h2⟩
        exact h h2
      simp only [dropTrailWs]
      rw [ih]
      simp [hne]

/-- `dropTrailWs` is idempotent. -/
theorem dropTrailWs_idem (l : Str) : dropTrailWs (dropTrailWs l) = dropTrailWs l := by
  induction l with
  | nil => rfl
  | cons c cs ih =>
    simp only [dropTrailWs]
    by_cases h : dropTrailWs cs = [] && isSpace c
    · simp [h, dropTrailWs]
    · simp only [h, if_false]
      simp only [dropTrailWs, ih]
      simp [h]

/-- `dropTrailWs` returns a prefix of its input: it is `[]` or keeps the head. -/
theorem dropTrailWs_head (c : Char) (cs : Str) :
    dropTrailWs (c :: cs) = [] ∨ ∃ r, dropTrailWs (c :: cs) = c :: r := by
  simp only [dropTrailWs]
  by_cases h : dropTrailWs cs = [] && isSpace c
  · exact Or.inl (by simp [h])
  · exact Or.inr ⟨dropTrailWs cs, by simp [h]⟩

/-- `pyStrip` is idempotent. -/
theorem pyStrip_idem (l : Str) : pyStrip (pyStrip l) = pyStrip l := by
  unfold pyStrip
  have h1 : (dropTrailWs (l.dropWhile isSpace)).dropWhile isSpace
      = dropTrailWs (l.dropWhile isSpace) := by
    cases hd : l.dropWhile isSpace with
    | nil => simp [hd, dropTrailWs]
    | cons c cs =>
      have hc : isSpace c = false := by
        have := List.head?_dropWhile_not isSpace l
        rw [hd] at this
        simpa using this
      rcases dropTrailWs_head c cs with h | ⟨r, h⟩
      · simp [h]
      · rw [h, List.dropWhile_cons_of_neg (by simp [hc])]
  rw [h1, dropTrailWs_idem]

-- Python `str.split(sep)` for a non-empty separator: split on each
-- non-overlapping occurrence of `sep`, scanning left to right.

/-- First occurrence of `sep` in `s`: `some (p, q)` with `s = p ++ sep ++ q`
and no occurrence starting inside `p`. -/
def findSub (sep : Str) : Str → Option (Str × Str)
  | [] => if List.isPrefixOf sep [] then some ([], []) else none
  | c :: cs =>
    if List.isPrefixOf sep (c :: cs) then some ([], (c :: cs).drop sep.length)
    else
      match findSub sep cs with
      | some (p, q) => some (c :: p, q)
      | none => none

/-- Splitting loop; `fuel` bounds the recursion depth (each step strictly
shortens the remaining string when `sep` is non-empty). -/
def pySplitAux (sep : Str) : Nat → Str → List Str
  | 0, s => [s]
  | fuel + 1, s =>
    match findSub sep s with
    | none => [s]
    | some (p, q) => p :: pySplitAux sep fuel q

/-- Python `s.split(sep)` for non-empty `sep`. -/
def pySplit (sep s : Str) : List Str :=
  if sep = [] then [s] else pySplitAux sep s.length s

/-- The indexing body of `extract_domain`'s `try` block:
`url.split('//')[1].split('/')[0]`, with `none` for an `IndexError`. -/
def domainTryBody (u : Str) : Option Str := do
  let t ← (pySplit "//".toList u).get? 1
  (pySplit "/".toList t).get? 0

/-- `extract_domain` from `ai_agent.py`: strip, prefix `https://` when no
scheme is present, then take `url.split('//')[1].split('/')[0]`; on
`IndexError` return the (prefixed) url. -/
def extract_domain (url : Str) : Str :=
  let u := addScheme (pyStrip url)
  match domainTryBody u with
  | some d => d
  | none => u

-- Lemmas about `findSub` and `pySplit`.

theorem isPrefixOf_ex : ∀ (sep l : Str), List.isPrefixOf sep l = true → ∃ t, l = sep ++ t := by
  intro sep
  induction sep with
  | nil => intro l _; exact ⟨l, rfl⟩
  | cons a as ih =>
    intro l h
    cases l with
    | nil => simp [List.isPrefixOf] at h
    | cons b bs =>
      simp only [List.isPrefixOf, Bool.and_eq_true, beq_iff_eq] at h
      obtain ⟨t, ht⟩ := ih bs h.2
      exact ⟨t, by simp [h.1, ht]⟩

theorem isPrefixOf_append_self : ∀ (l t : Str), List.isPrefixOf l (l ++ t) = true := by
  intro l t
  induction l with
  | nil => simp [List.isPrefixOf]
  | cons a as ih => simp [List.isPrefixOf, ih]

theorem findSub_some_eq (sep : Str) :
    ∀ (s p q : Str), findSub sep s = some (p, q) → s = p ++ sep ++ q := by
  intro s
  induction s with
  | nil =>
    intro p q h
    simp only [findSub] at h
    split at h
    · rename_i hpre
      obtain ⟨t, ht⟩ := isPrefixOf_ex sep [] hpre
      rcases List.append_eq_nil.mp ht.symm with ⟨h1, h2⟩
      simp only [Option.some.injEq, Prod.mk.injEq] at h
      simp [← h.1, ← h.2, h1, h2]
    · exact absurd h (by simp)
  | cons c cs ih =>
    intro p q h
    simp only [findSub] at h
    split at h
    · rename_i hpre
      obtain ⟨t, ht⟩ := isPrefixOf_ex sep (c :: cs) hpre
      simp only [Option.some.injEq, Prod.mk.injEq] at h
      rw [← h.1, ← h.2, ht, List.nil_append, List.drop_append_of_le_length (by omega),
        List.drop_length]
      simp
    · revert h
      cases hf : findSub sep cs with
      | none => intro h; exact absurd h (by simp)
      | some pq =>
        intro h
        simp only [Option.some.injEq, Prod.mk.injEq] at h
        have := ih pq.1 pq.2 (by rw [hf])
        rw [← h.1, ← h.2, this]
        simp

theorem findSub_some_length {sep : Str} (hsep : sep ≠ []) {s p q : Str}
    (h : findSub sep s = some (p, q)) : q.length < s.length := by
  have heq := findSub_some_eq sep s p q h
  have : sep.length ≠ 0 := by simpa using hsep
  rw [heq]
  simp only [List.length_append]
  omega

theorem pySplitAux_norm {sep : Str} (hsep : sep ≠ []) :
    ∀ n s, s.length ≤ n → pySplitAux sep n s = pySplitAux sep s.length s := by
  intro n
  induction n using Nat.strong_induction_on with
  | _ n ih =>
    intro s hs
    match n with
    | 0 =>
      have : s.length = 0 := Nat.le_zero.mp hs
      rw [this]
    | m + 1 =>
      cases hl : s.length with
      | zero =>
        have hnil : s = [] := List.length_eq_zero.mp hl
        subst hnil
        have hf : findSub sep [] = none := by
          cases sep with
          | nil => exact absurd rfl hsep
          | cons a as => simp [findSub, List.isPrefixOf]
        simp [pySplitAux, hf]
      | succ k =>
        simp only [pySplitAux]
        cases hf : findSub sep s with
        | none => rfl
        | some pq =>
          have hq : pq.2.length < s.length := findSub_some_length hsep (by rw [hf])
          have h1 : pySplitAux sep m pq.2 = pySplitAux sep pq.2.length pq.2 :=
            ih m (Nat.lt_succ_self m) pq.2 (by omega)
          have h2 : pySplitAux sep k pq.2 = pySplitAux sep pq.2.length pq.2 :=
            ih k (by omega) pq.2 (by omega)
          simp only [h1, h2]

theorem pySplit_step {sep : Str} (hsep : sep ≠ []) (s : Str) :
    pySplit sep s =
      match findSub sep s with
      | none => [s]
      | some (p, q) => p :: pySplit sep q := by
  cases hf : findSub sep s with
  | none =>
    unfold pySplit
    rw [if_neg hsep]
    cases hl : s.length with
    | zero => rfl
    | succ k => simp [pySplitAux, hf]
  | some pq =>
    obtain ⟨p, q⟩ := pq
    show pySplit sep s = p :: pySplit sep q
    unfold pySplit
    rw [if_neg hsep, if_neg hsep]
    cases hl : s.length with
    | zero =>
      have hnil : s = [] := List.length_eq_zero.mp hl
      subst hnil
      have hn : findSub sep [] = none := by
        cases sep with
        | nil => exact absurd rfl hsep
        | cons a as => simp [findSub, List.isPrefixOf]
      rw [hn] at hf
      exact absurd hf (by simp)
    | succ k =>
      have hq : q.length < s.length := findSub_some_length hsep hf
      simp only [pySplitAux, hf]
      rw [pySplitAux_norm hsep k q (by omega)]

theorem pySplit_ne_nil (sep s : Str) : pySplit sep s ≠ [] := by
  unfold pySplit
  split
  · simp
  · cases hn : s.length with
    | zero => simp [pySplitAux]
    | succ k =>
      simp only [pySplitAux]
      cases hf : findSub sep s <;> simp

-- Occurrences of `//` and `/` in slash-free contexts.

theorem findSub_cons (sep : Str) (c : Char) (cs : Str) :
    findSub sep (c :: cs) =
      if List.isPrefixOf sep (c :: cs) then some ([], (c :: cs).drop sep.length)
      else
        match findSub sep cs with
        | some (p, q) => some (c :: p, q)
        | none => none := rfl

theorem findSub_dbl_append (s t : Str) (hs : ∀ c ∈ s, ¬ c = '/') :
    findSub ['/', '/'] (s ++ t) =
      (findSub ['/', '/'] t).map (fun pq => (s ++ pq.1, pq.2)) := by
  induction s with
  | nil =>
    cases hf : findSub ['/', '/'] t <;> simp [hf]
  | cons c cs ih =>
    have hc : ¬ c = '/' := hs c (List.mem_cons_self c cs)
    have hcs : ∀ x ∈ cs, ¬ x = '/' := fun x hx => hs x (List.mem_cons_of_mem c hx)
    have hpre : List.isPrefixOf ['/', '/'] (c :: (cs ++ t)) = false := by
      simp only [List.isPrefixOf, Bool.and_eq_false_iff]
      left
      simp [beq_iff_eq]
      exact fun h => hc h.symm
    rw [List.cons_append, findSub_cons, if_neg (by simp [hpre]), ih hcs]
    cases hf : findSub ['/', '/'] t <;> simp [hf]

theorem findSub_dbl_cons (w : Str) : findSub ['/', '/'] ('/' :: '/' :: w) = some ([], w) := by
  simp [findSub, List.isPrefixOf]

theorem findSub_sgl_none (s : Str) (hs : ∀ c ∈ s, ¬ c = '/') :
    findSub ['/'] s = none := by
  induction s with
  | nil => simp [findSub, List.isPrefixOf]
  | cons c cs ih =>
    have hc : ¬ c = '/' := hs c (List.mem_cons_self c cs)
    have hcs : ∀ x ∈ cs, ¬ x = '/' := fun x hx => hs x (List.mem_cons_of_mem c hx)
    have hpre : List.isPrefixOf ['/'] (c :: cs) = false := by
      simp only [List.isPrefixOf]
      simp [beq_iff_eq]
      exact fun h => hc h.symm
    simp [findSub, hpre, ih hcs]

theorem findSub_sgl_append (s t : Str) (hs : ∀ c ∈ s, ¬ c = '/') :
    findSub ['/'] (s ++ '/' :: t) = some (s, t) := by
  induction s with
  | nil => simp [findSub, List.isPrefixOf]
  | cons c cs ih =>
    have hc : ¬ c = '/' := hs c (List.mem_cons_self c cs)
    have hcs : ∀ x ∈ cs, ¬ x = '/' := fun x hx => hs x (List.mem_cons_of_mem c hx)
    have hpre : List.isPrefixOf ['/'] (c :: (cs ++ '/' :: t)) = false := by
      simp only [List.isPrefixOf]
      simp [beq_iff_eq]
      exact fun h => hc h.symm
    simp [findSub, hpre, ih hcs]

theorem findSub_cons_shape {sep : Str} {c : Char} {cs p q : Str}
    (h : findSub sep (c :: cs) = some (p, q)) : p = [] ∨ ∃ p', p = c :: p' := by
  simp only [findSub] at h
  split at h
  · simp only [Option.some.injEq, Prod.mk.injEq] at h
    exact Or.inl h.1.symm
  · revert h
    cases hf : findSub sep cs with
    | none => intro h; exact absurd h (by simp)
    | some pq =>
      intro h
      simp only [Option.some.injEq, Prod.mk.injEq] at h
      exact Or.inr ⟨pq.1, h.1.symm⟩

theorem split_sgl_head_noslash (w : Str) (h : ∀ c ∈ w, ¬ c = '/') :
    (pySplit ['/'] w).get? 0 = some w := by
  rw [pySplit_step (by simp) w, findSub_sgl_none w h]
  rfl

theorem split_sgl_head_append (a b : Str) (ha : ∀ c ∈ a, ¬ c = '/') :
    (pySplit ['/'] (a ++ '/' :: b)).get? 0 = some a := by
  rw [pySplit_step (by simp) (a ++ '/' :: b), findSub_sgl_append a b ha]
  rfl

theorem list_get0_isSome {l : List Str} (h : l ≠ []) : (l.get? 0).isSome := by
  cases l with
  | nil => exact absurd rfl h
  | cons x xs => simp

/-- On any input of the form `host/path` with a slash-free `host`, prefixing
`https://` and taking `split('//')[1].split('/')[0]` yields `host`. -/
theorem domainTryBody_https (host path : Str) (hh : ∀ c ∈ host, ¬ c = '/') :
    domainTryBody ("https://".toList ++ (host ++ '/' :: path)) = some host := by
  have hfind : findSub ['/', '/'] ("https://".toList ++ (host ++ '/' :: path))
      = some ("https:".toList, host ++ '/' :: path) := by
    have hu : "https://".toList ++ (host ++ '/' :: path)
        = "https:".toList ++ ('/' :: '/' :: (host ++ '/' :: path)) := rfl
    rw [hu, findSub_dbl_append "https:".toList _ (by decide), findSub_dbl_cons]
    rfl
  have hrest : ∃ t, (pySplit ['/', '/'] (host ++ '/' :: path)).get? 0 = some t ∧
      (pySplit ['/'] t).get? 0 = some host := by
    cases hf : findSub ['/', '/'] (host ++ '/' :: path) with
    | none =>
      refine ⟨host ++ '/' :: path, ?_, split_sgl_head_append host path hh⟩
      rw [pySplit_step (by simp) _, hf]
      rfl
    | some pq =>
      obtain ⟨p, q⟩ := pq
      have hshape := findSub_dbl_append host ('/' :: path) hh
      rw [hf] at hshape
      refine ⟨p, ?_, ?_⟩
      · rw [pySplit_step (by simp) _, hf]
        rfl
      · cases hf2 : findSub ['/', '/'] ('/' :: path) with
        | none => rw [hf2] at hshape; exact absurd hshape (by simp)
        | some pq2 =>
          obtain ⟨p2, q2⟩ := pq2
          rw [hf2] at hshape
          simp only [Option.map_some', Option.some.injEq, Prod.mk.injEq] at hshape
          rcases findSub_cons_shape hf2 with h0 | ⟨p', hp'⟩
          · have hp : p = host := by rw [hshape.1, h0, List.append_nil]
            rw [hp]
            exact split_sgl_head_noslash host hh
          · have hp : p = host ++ '/' :: p' := by rw [hshape.1, hp']
            rw [hp]
            exact split_sgl_head_append host p' hh
  obtain ⟨t, ht1, ht2⟩ := hrest
  show ((pySplit ['/', '/'] ("https://".toList ++ (host ++ '/' :: path))).get? 1 >>=
      fun t => (pySplit ['/'] t).get? 0) = some host
  rw [pySplit_step (by simp) _, hfind]
  show ((pySplit ['/', '/'] (host ++ '/' :: path)).get? 0 >>=
      fun t => (pySplit ['/'] t).get? 0) = some host
  rw [ht1]
  exact ht2

/-- After the `//` of any scheme, `split('//')[1].split('/')[0]` always
succeeds (no `IndexError`). -/
theorem domainTryBody_shape (a b : Str) (ha : ∀ c ∈ a, ¬ c = '/') :
    ∃ d, domainTryBody (a ++ '/' :: '/' :: b) = some d := by
  have hfind : findSub ['/', '/'] (a ++ '/' :: '/' :: b) = some (a, b) := by
    rw [findSub_dbl_append a _ ha, findSub_dbl_cons]
    simp
  show ∃ d, ((pySplit ['/', '/'] (a ++ '/' :: '/' :: b)).get? 1 >>=
      fun t => (pySplit ['/'] t).get? 0) = some d
  rw [pySplit_step (by simp) _, hfind]
  show ∃ d, ((pySplit ['/', '/'] b).get? 0 >>= fun t => (pySplit ['/'] t).get? 0) = some d
  obtain ⟨t0, ht0⟩ : ∃ t0, (pySplit ['/', '/'] b).get? 0 = some t0 := by
    cases hE : pySplit ['/', '/'] b with
    | nil => exact absurd hE (pySplit_ne_nil _ _)
    | cons x xs => exact ⟨x, by simp⟩
  rw [ht0]
  obtain ⟨d0, hd0⟩ : ∃ d0, (pySplit ['/'] t0).get? 0 = some d0 := by
    cases hE : pySplit ['/'] t0 with
    | nil => exact absurd hE (pySplit_ne_nil _ _)
    | cons x xs => exact ⟨x, by simp⟩
  exact ⟨d0, hd0⟩

theorem extract_domain_eq_of (url d : Str)
    (h : domainTryBody (addScheme (pyStrip url)) = some d) : extract_domain url = d := by
  show (match domainTryBody (addScheme (pyStrip url)) with
    | some d => d
    | none => addScheme (pyStrip url)) = d
  rw [h]

-- Strings without whitespace are fixed by `pyStrip`.

theorem dropTrailWs_of_nonspace (l : Str) (h : ∀ c ∈ l, isSpace c = false) :
    dropTrailWs l = l := by
  induction l with
  | nil => rfl
  | cons c cs ih =>
    have hc : isSpace c = false := h c (List.mem_cons_self c cs)
    have hcs : ∀ x ∈ cs, isSpace x = false := fun x hx => h x (List.mem_cons_of_mem c hx)
    simp [dropTrailWs, ih hcs, hc]

theorem pyStrip_of_nonspace (l : Str) (h : ∀ c ∈ l, isSpace c = false) :
    pyStrip l = l := by
  unfold pyStrip
  cases l with
  | nil => rfl
  | cons c cs =>
    have hc : isSpace c = false := h c (List.mem_cons_self c cs)
    rw [List.dropWhile_cons_of_neg (by simp [hc])]
    exact dropTrailWs_of_nonspace _ h

/-- C7: the scheme-less and `https://`-schemed forms of `host/path` give the
same domain, namely `host` (the substring after the first `//` up to the
next `/`). -/
theorem extract_domain_scheme_agnostic (host path : Str)
    (hh : ∀ c ∈ host, ¬ c = '/')
    (hws : ∀ c ∈ host ++ '/' :: path, isSpace c = false)
    (hsch : startsHttp (host ++ '/' :: path) = false) :
    extract_domain (host ++ '/' :: path) = host ∧
    extract_domain ("https://".toList ++ (host ++ '/' :: path)) = host := by
  constructor
  · apply extract_domain_eq_of
    rw [pyStrip_of_nonspace _ hws]
    show domainTryBody (if startsHttp (host ++ '/' :: path) then host ++ '/' :: path
      else "https://".toList ++ (host ++ '/' :: path)) = some host
    rw [hsch]
    simp only [Bool.false_eq_true, if_false]
    exact domainTryBody_https host path hh
  · apply extract_domain_eq_of
    have hws2 : ∀ c ∈ "https://".toList ++ (host ++ '/' :: path), isSpace c = false := by
      intro c hc
      rcases List.mem_append.mp hc with h1 | h2
      · have hall : ∀ x ∈ "https://".toList, isSpace x = false := by decide
        exact hall c h1
      · exact hws c h2
    rw [pyStrip_of_nonspace _ hws2]
    have hsch2 : startsHttp ("https://".toList ++ (host ++ '/' :: path)) = true := by
      unfold startsHttp
      rw [isPrefixOf_append_self "https://".toList (host ++ '/' :: path)]
      simp
    show domainTryBody (if startsHttp ("https://".toList ++ (host ++ '/' :: path))
      then "https://".toList ++ (host ++ '/' :: path)
      else "https://".toList ++ ("https://".toList ++ (host ++ '/' :: path))) = some host
    rw [hsch2]
    simp only [if_true]
    exact domainTryBody_https host path hh

/-- C10: `extract_domain` is total and the `IndexError` branch is
unreachable: after scheme prefixing, the split-indexing body always
produces a value, and `extract_domain` returns it. -/
theorem extract_domain_no_indexError (url : Str) :
    ∃ d, domainTryBody (addScheme (pyStrip url)) = some d ∧ extract_domain url = d := by
  have hshape : ∃ a b, addScheme (pyStrip url) = a ++ '/' :: '/' :: b ∧
      ∀ c ∈ a, ¬ c = '/' := by
    unfold addScheme
    by_cases hs : startsHttp (pyStrip url) = true
    · rw [hs]
      simp only [if_true]
      unfold startsHttp at hs
      rcases Bool.or_eq_true_iff.mp hs with h1 | h2
      · obtain ⟨r, hr⟩ := isPrefixOf_ex _ _ h1
        exact ⟨"http:".toList, r, by rw [hr]; rfl, by decide⟩
      · obtain ⟨r, hr⟩ := isPrefixOf_ex _ _ h2
        exact ⟨"https:".toList, r, by rw [hr]; rfl, by decide⟩
    · rw [Bool.not_eq_true] at hs
      rw [hs]
      simp only [Bool.false_eq_true, if_false]
      exact ⟨"https:".toList, pyStrip url, rfl, by decide⟩
  obtain ⟨a, b, hab, ha⟩ := hshape
  obtain ⟨d, hd⟩ := domainTryBody_shape a b ha
  rw [← hab] at hd
  exact ⟨d, hd, extract_domain_eq_of url d hd⟩

-- Signal extractor: about-text post-processing
-- (`re.sub(r'\s+', ' ', about_text).strip()` then `[:1000]`).

/-- Python `re.sub(r'\s+', ' ', s)`: replace every maximal run of
whitespace with a single space. -/
def collapseWs : Str → Str
  | [] => []
  | [c] => if isSpace c then [' '] else [c]
  | c :: d :: cs =>
    if isSpace c && isSpace d then collapseWs (d :: cs)
    else (if isSpace c then ' ' else c) :: collapseWs (d :: cs)

/-- The about-text clean-up of `scrape_website`:
`about_text = re.sub(r'\s+', ' ', about_text).strip()` followed by
`about_text = about_text[:1000]`. -/
def cleanAboutText (about_text : Str) : Str :=
  (pyStrip (collapseWs about_text)).take 1000

/-- Does the string contain two adjacent whitespace characters? -/
def hasWsPair : Str → Bool
  | c :: d :: cs => (isSpace c && isSpace d) || hasWsPair (d :: cs)
  | _ => false

-- Properties of `collapseWs` and the clean-up pipeline.

theorem collapseWs_cons_nonspace (c : Char) (l : Str) (hc : isSpace c = false) :
    collapseWs (c :: l) = c :: collapseWs l := by
  cases l with
  | nil => simp [collapseWs, hc]
  | cons d cs => simp [collapseWs, hc]

theorem collapseWs_head? (d : Char) (cs : Str) :
    (collapseWs (d :: cs)).head? = some (if isSpace d then ' ' else d) := by
  induction cs generalizing d with
  | nil =>
    by_cases hd : isSpace d = true <;> simp [collapseWs, hd]
  | cons e cs' ih =>
    by_cases hde : isSpace d && isSpace e
    · have hd : isSpace d = true := (Bool.and_eq_true _ _ |>.mp hde).1
      have he : isSpace e = true := (Bool.and_eq_true _ _ |>.mp hde).2
      rw [show collapseWs (d :: e :: cs') = collapseWs (e :: cs') by simp [collapseWs, hde]]
      rw [ih e]
      simp [hd, he]
    · rw [show collapseWs (d :: e :: cs')
        = (if isSpace d then ' ' else d) :: collapseWs (e :: cs') by simp [collapseWs, hde]]
      simp

theorem hasWsPair_collapseWs (l : Str) : hasWsPair (collapseWs l) = false := by
  induction l with
  | nil => rfl
  | cons c cs ih =>
    cases cs with
    | nil =>
      by_cases hc : isSpace c = true <;> simp [collapseWs, hasWsPair, hc]
    | cons d cs' =>
      by_cases hcd : isSpace c && isSpace d
      · rw [show collapseWs (c :: d :: cs') = collapseWs (d :: cs') by simp [collapseWs, hcd]]
        exact ih
      · rw [show collapseWs (c :: d :: cs')
          = (if isSpace c then ' ' else c) :: collapseWs (d :: cs') by simp [collapseWs, hcd]]
        cases hcol : collapseWs (d :: cs') with
        | nil => simp [hasWsPair]
        | cons y r =>
          have hy : y = if isSpace d then ' ' else d := by
            have := collapseWs_head? d cs'
            rw [hcol] at this
            simpa using this
          rw [hcol] at ih
          have hxy : (isSpace (if isSpace c then ' ' else c) && isSpace y) = false := by
            by_cases hc : isSpace c = true
            · have hd : isSpace d = false := by
                rcases Bool.and_eq_false_iff.mp (Bool.eq_false_iff.mpr hcd) with h | h
                · exact absurd hc (by simp [h])
                · exact h
              rw [hy, hc]
              simp [hd]
            · have hc' : isSpace c = false := Bool.eq_false_iff.mpr hc
              rw [hc']
              simp [hc']
          simp [hasWsPair, hxy, ih]

theorem hasWsPair_tail {c : Char} {cs : Str} (h : hasWsPair (c :: cs) = false) :
    hasWsPair cs = false := by
  cases cs with
  | nil => rfl
  | cons d cs' =>
    simp only [hasWsPair, Bool.or_eq_false_iff] at h
    exact h.2

theorem hasWsPair_pair {c d : Char} {cs : Str} (h : hasWsPair (c :: d :: cs) = false) :
    (isSpace c && isSpace d) = false := by
  simp only [hasWsPair, Bool.or_eq_false_iff] at h
  exact h.1

theorem hasWsPair_take (l : Str) (n : Nat) (h : hasWsPair l = false) :
    hasWsPair (l.take n) = false := by
  induction l generalizing n with
  | nil => simp [List.take_nil, hasWsPair]
  | cons c cs ih =>
    cases n with
    | zero => rfl
    | succ m =>
      cases cs with
      | nil =>
        cases m <;> simp [hasWsPair]
      | cons d cs' =>
        have h1 : (isSpace c && isSpace d) = false := hasWsPair_pair h
        have h2 : hasWsPair (d :: cs') = false := hasWsPair_tail h
        cases m with
        | zero => simp [hasWsPair]
        | succ k =>
          have hrec := ih (k + 1) h2
          simp only [List.take_succ_cons, hasWsPair]
          simp only [List.take_succ_cons] at hrec
          simp [h1, hrec]

theorem hasWsPair_dropWhile (l : Str) (h : hasWsPair l = false) :
    hasWsPair (l.dropWhile isSpace) = false := by
  induction l with
  | nil => exact h
  | cons c cs ih =>
    by_cases hc : isSpace c = true
    · rw [List.dropWhile_cons_of_pos (by simp [hc])]
      exact ih (hasWsPair_tail h)
    · rw [List.dropWhile_cons_of_neg (by simp [Bool.eq_false_iff.mpr hc])]
      exact h

theorem hasWsPair_dropTrailWs (l : Str) (h : hasWsPair l = false) :
    hasWsPair (dropTrailWs l) = false := by
  induction l with
  | nil => exact h
  | cons c cs ih =>
    show hasWsPair (if dropTrailWs cs = [] && isSpace c then [] else c :: dropTrailWs cs) = false
    by_cases hcond : (dropTrailWs cs = [] && isSpace c) = true
    · rw [hcond]
      rfl
    · rw [Bool.eq_false_iff.mpr hcond, if_neg (by simp)]
      have ih' := ih (hasWsPair_tail h)
      cases hdt : dropTrailWs cs with
      | nil => simp [hasWsPair]
      | cons y r =>
        cases cs with
        | nil => rw [dropTrailWs_nil] at hdt; exact absurd hdt (by simp)
        | cons d cs' =>
          rcases dropTrailWs_head d cs' with h0 | ⟨r', hr'⟩
          · rw [h0] at hdt
            exact absurd hdt (by simp)
          · rw [hr'] at hdt
            have hy : y = d := by
              injection hdt with ha hb
              exact ha.symm
            have hr : r = r' := by
              injection hdt with ha hb
              exact hb.symm
            subst hy
            subst hr
            show ((isSpace c && isSpace y) || hasWsPair (y :: r)) = false
            rw [hasWsPair_pair h]
            rw [hr'] at ih'
            rw [ih']
            rfl

theorem take_head? (l : Str) (n : Nat) (hn : 0 < n) : (l.take n).head? = l.head? := by
  cases l with
  | nil => simp
  | cons x xs =>
    obtain ⟨m, rfl⟩ : ∃ m, n = m + 1 := ⟨n - 1, by omega⟩
    simp [List.take_succ_cons]

theorem pyStrip_head {l : Str} {c : Char} {r : Str} (h : pyStrip l = c :: r) :
    isSpace c = false := by
  unfold pyStrip at h
  cases hd : l.dropWhile isSpace with
  | nil =>
    rw [hd] at h
    exact absurd h (by simp [dropTrailWs])
  | cons d ds =>
    have hds : isSpace d = false := by
      have := List.head?_dropWhile_not isSpace l
      rw [hd] at this
      simpa using this
    rw [hd] at h
    rcases dropTrailWs_head d ds with h0 | ⟨r', hr'⟩
    · rw [h0] at h
      exact absurd h (by simp)
    · rw [hr'] at h
      have : c = d := by
        injection h with h1 h2
        exact h1.symm
      rw [this]
      exact hds

theorem dropTrailWs_getLast (m : Str) :
    ∀ c, (dropTrailWs m).getLast? = some c → isSpace c = false := by
  induction m with
  | nil => intro c hc; simp [dropTrailWs] at hc
  | cons a as ih =>
    intro c hc
    rw [show dropTrailWs (a :: as)
      = if dropTrailWs as = [] && isSpace a then [] else a :: dropTrailWs as from rfl] at hc
    by_cases hcond : (dropTrailWs as = [] && isSpace a) = true
    · rw [hcond] at hc
      simp at hc
    · rw [Bool.eq_false_iff.mpr hcond, if_neg (by simp)] at hc
      cases hdt : dropTrailWs as with
      | nil =>
        rw [hdt] at hc
        have hca : c = a := by
          have := hc
          simp only [List.getLast?_singleton, Option.some.injEq] at this
          exact this.symm
        have ha : isSpace a = false := by
          rcases Bool.and_eq_false_iff.mp (Bool.eq_false_iff.mpr hcond) with h | h
          · exact absurd hdt (by simpa using h)
          · exact h
        rw [hca]
        exact ha
      | cons y r =>
        rw [hdt] at hc
        rw [List.getLast?_cons_cons] at hc
        rw [← hdt] at hc
        exact ih c hc

/-- C4 (amended): the cleaned about-text is at most 1000 characters long,
contains no run of two or more whitespace characters, never starts with
whitespace, and — whenever the 1000-character truncation does not cut the
text — never ends with whitespace either.  (Truncation can leave a single
trailing space, see the counterexample.) -/
theorem cleanAboutText_props (raw : Str) :
    (cleanAboutText raw).length ≤ 1000 ∧
    hasWsPair (cleanAboutText raw) = false ∧
    (∀ c, (cleanAboutText raw).head? = some c → isSpace c = false) ∧
    ((pyStrip (collapseWs raw)).length ≤ 1000 →
      ∀ c, (cleanAboutText raw).getLast? = some c → isSpace c = false) := by
  refine ⟨?_, ?_, ?_, ?_⟩
  · simp only [cleanAboutText, List.length_take]
    omega
  · exact hasWsPair_take _ _
      (hasWsPair_dropTrailWs _ (hasWsPair_dropWhile _ (hasWsPair_collapseWs raw)))
  · intro c hc
    rw [cleanAboutText, take_head? _ _ (by norm_num)] at hc
    cases hp : pyStrip (collapseWs raw) with
    | nil => rw [hp] at hc; simp at hc
    | cons x xs =>
      rw [hp] at hc
      have hcx : c = x := by
        have := hc
        simp only [List.head?_cons, Option.some.injEq] at this
        exact this.symm
      rw [hcx]
      exact pyStrip_head hp
  · intro hlen c hc
    rw [cleanAboutText, List.take_of_length_le hlen] at hc
    exact dropTrailWs_getLast _ c hc

-- The truncation step can leave a single trailing space: an input whose
-- collapsed, stripped form has a space exactly at position 999.

/-- 999 non-space characters followed by a space and one more character. -/
def c4BadInput : Str := List.replicate 999 'a' ++ [' ', 'b']

theorem collapseWs_replicate_a (n : Nat) (t : Str) :
    collapseWs (List.replicate n 'a' ++ t) = List.replicate n 'a' ++ collapseWs t := by
  induction n with
  | zero => simp
  | succ m ih =>
    rw [List.replicate_succ, List.cons_append,
      collapseWs_cons_nonspace 'a' _ (by decide), ih, ← List.cons_append,
      ← List.replicate_succ]

theorem pyStrip_c4BadInput : pyStrip c4BadInput = c4BadInput := by
  unfold pyStrip c4BadInput
  have h999 : (999 : Nat) = 998 + 1 := by norm_num
  rw [h999, List.replicate_succ, List.cons_append,
    List.dropWhile_cons_of_neg (by simp [isSpace]), ← List.cons_append, ← List.replicate_succ,
    dropTrailWs_append]
  rw [show dropTrailWs [' ', 'b'] = [' ', 'b'] from by decide, if_neg (by simp)]

theorem cleanAboutText_c4BadInput :
    cleanAboutText c4BadInput = List.replicate 999 'a' ++ [' '] := by
  unfold cleanAboutText
  rw [show collapseWs c4BadInput = c4BadInput from ?_, pyStrip_c4BadInput]
  · unfold c4BadInput
    rw [List.take_append_eq_append_take, List.length_replicate,
      List.take_of_length_le (by rw [List.length_replicate]; norm_num)]
    rfl
  · unfold c4BadInput
    rw [collapseWs_replicate_a]
    rfl

/-- C4 counterexample: on this input the cleaned about-text *does* end with
whitespace — `[:1000]` cuts right after a space — refuting the claim that
the extracted aboutText never has trailing whitespace. -/
theorem cleanAboutText_trailing_ws_cex :
    (cleanAboutText c4BadInput).getLast? = some ' ' ∧ isSpace ' ' = true := by
  constructor
  · rw [cleanAboutText_c4BadInput, List.getLast?_append]
    rfl
  · decide

/-- Witness for the amended C4 theorem at a concrete input. -/
theorem cleanAboutText_props_witness :
    (cleanAboutText "  hi   there  ".toList).length ≤ 1000 ∧
    hasWsPair (cleanAboutText "  hi   there  ".toList) = false ∧
    isSpace 'h' = false ∧ isSpace 'e' = false := by
  have h := cleanAboutText_props "  hi   there  ".toList
  exact ⟨h.1, h.2.1, h.2.2.1 'h' (by decide), h.2.2.2 (by decide) 'e' (by decide)⟩

-- URL normalizer properties.

theorem pyStrip_https_append (y : Str) (hy : dropTrailWs y = y) :
    pyStrip ("https://".toList ++ y) = "https://".toList ++ y := by
  unfold pyStrip
  rw [show "https://".toList ++ y = 'h' :: ("ttps://".toList ++ y) from rfl,
    List.dropWhile_cons_of_neg (by simp [isSpace]),
    show 'h' :: ("ttps://".toList ++ y) = "https://".toList ++ y from rfl,
    dropTrailWs_append, hy]
  by_cases h : y = []
  · subst h
    rw [if_pos rfl, show dropTrailWs "https://".toList = "https://".toList from by decide]
    simp
  · rw [if_neg h]

/-- C6 counterexample: an input that already carries a scheme but has
trailing whitespace is *not* returned untouched — `clean_url` strips it. -/
theorem clean_url_untouched_cex :
    startsHttp "https://a.com ".toList = true ∧
    clean_url "https://a.com ".toList ≠ "https://a.com ".toList := by decide

/-- C6 (amended): after trimming whitespace, `clean_url` prepends
`https://` exactly when the trimmed string carries no scheme, returns the
trimmed string itself when it does, and is idempotent. -/
theorem clean_url_spec (url : Str) :
    (startsHttp (pyStrip url) = false → clean_url url = "https://".toList ++ pyStrip url) ∧
    (startsHttp (pyStrip url) = true → clean_url url = pyStrip url) ∧
    clean_url (clean_url url) = clean_url url := by
  refine ⟨?_, ?_, ?_⟩
  · intro h
    show (if startsHttp (pyStrip url) then pyStrip url
      else "https://".toList ++ pyStrip url) = "https://".toList ++ pyStrip url
    rw [h]
    simp
  · intro h
    show (if startsHttp (pyStrip url) then pyStrip url
      else "https://".toList ++ pyStrip url) = pyStrip url
    rw [h]
    simp
  · by_cases hs : startsHttp (pyStrip url) = true
    · have h1 : clean_url url = pyStrip url := by
        show (if startsHttp (pyStrip url) then pyStrip url
          else "https://".toList ++ pyStrip url) = pyStrip url
        rw [hs]
        simp
      rw [h1]
      show (if startsHttp (pyStrip (pyStrip url)) then pyStrip (pyStrip url)
        else "https://".toList ++ pyStrip (pyStrip url)) = pyStrip url
      rw [pyStrip_idem, hs]
      simp
    · have hs' : startsHttp (pyStrip url) = false := Bool.eq_false_iff.mpr hs
      have h1 : clean_url url = "https://".toList ++ pyStrip url := by
        show (if startsHttp (pyStrip url) then pyStrip url
          else "https://".toList ++ pyStrip url) = "https://".toList ++ pyStrip url
        rw [hs']
        simp
      rw [h1]
      show (if startsHttp (pyStrip ("https://".toList ++ pyStrip url))
        then pyStrip ("https://".toList ++ pyStrip url)
        else "https://".toList ++ pyStrip ("https://".toList ++ pyStrip url))
        = "https://".toList ++ pyStrip url
      rw [pyStrip_https_append (pyStrip url) (dropTrailWs_idem _)]
      have hstarts : startsHttp ("https://".toList ++ pyStrip url) = true := by
        unfold startsHttp
        rw [isPrefixOf_append_self "https://".toList (pyStrip url)]
        simp
      rw [hstarts]
      simp

/-- Witness for the amended C6 theorem at concrete inputs. -/
theorem clean_url_spec_witness :
    clean_url " example.com".toList = "https://example.com".toList ∧
    clean_url "https://a.com".toList = "https://a.com".toList ∧
    clean_url (clean_url " example.com".toList) = clean_url " example.com".toList := by
  refine ⟨?_, ?_, (clean_url_spec " example.com".toList).2.2⟩
  · have h := (clean_url_spec " example.com".toList).1 (by decide)
    rw [h]
    decide
  · have h := (clean_url_spec "https://a.com".toList).2.1 (by decide)
    rw [h]
    decide

-- Message generator (`generate_outreach_message`).

/-- The placeholder substituted for a missing/short about-text:
`f"This is for {website}, but I couldn't extract much information about them."` -/
def genericAbout (website : Str) : Str :=
  "This is for ".toList ++ website
    ++ ", but I couldn\x27t extract much information about them.".toList

/-- The prompt f-string of `generate_outreach_message` (lines 137-154). -/
def promptText (website about_text : Str) : Str :=
  "\n        Create a personalized cold outreach email message for the website ".toList
    ++ website
    ++ ".\n        \n        About the business:\n        ".toList
    ++ about_text
    ++ "\n        \n        The message should:\n        - Be 3-4 paragraphs, professional but conversational in tone\n        - Include a brief introduction and reason for reaching out\n        - Reference specific elements from their business/website\n        - Suggest a potential collaboration or service that would benefit them\n        - Include a clear call to action\n        - Have a professional sign-off\n        - Be about 150-200 words total\n        - DO NOT include email subject line or greeting (like \"Dear...\" or \"Hello...\")\n        \n        Output only the message body, nothing else.\n        ".toList

/-- Middle of the too-short-output fallback f-string (between the
`{website}` interpolation and the final period). -/
def fsMid : Str :=
  " and was impressed by your offerings. Our agency specializes in helping businesses like yours increase online visibility and generate more leads.\n            \n            Based on my quick analysis, there are some untapped opportunities for growing your digital presence that we\x27ve successfully implemented with similar companies in your industry.\n            \n            I\x27d love to share some specific ideas tailored to your business. Would you be open to a brief 15-minute call next week to discuss how we might be able to help?\n            \n            Looking forward to connecting".toList

/-- The f-string (before `.strip()`) substituted when the API succeeds but
returns nothing useful (empty or shorter than 50 characters). -/
def fallbackShortRaw (website : Str) : Str :=
  "\n            I came across ".toList ++ website ++ fsMid ++ ['.'] ++ "\n            ".toList

/-- The too-short-output fallback message: the raw f-string `.strip()`ed. -/
def fallbackShort (website : Str) : Str :=
  pyStrip (fallbackShortRaw website)

/-- Middle of the exception-path fallback f-string (between the `{website}`
interpolation and the final comma). -/
def feMid : Str :=
  " and wanted to reach out because I believe our services could be valuable to your business. \n        \n        We help companies like yours improve their online presence and generate more qualified leads through targeted digital marketing strategies.\n        \n        Would you be open to a quick conversation to explore if there might be a good fit? I\x27d be happy to share some ideas specific to your industry.\n        \n        Best regards".toList

/-- The f-string (before `.strip()`) returned from the `except` branch when
the API call raises (network error, non-2xx, malformed JSON). -/
def fallbackErrorRaw (website : Str) : Str :=
  "\n        I recently discovered ".toList ++ website ++ feMid ++ [','] ++ "\n        ".toList

/-- The exception-path fallback message: the raw f-string `.strip()`ed. -/
def fallbackError (website : Str) : Str :=
  pyStrip (fallbackErrorRaw website)

/-- `generate_outreach_message` from `ai_agent.py`, parameterized by the
chat-completion API call.  `api prompt = none` models any exception on the
request/parse path (network error, non-2xx status, malformed JSON);
`api prompt = some content` models a successful extraction of
`response_data["choices"][0]["message"]["content"]`. -/
def generate_outreach_message (api : Str → Option Str) (website about_text : Str) : Str :=
  let about := if about_text = [] || about_text.length < 50
    then genericAbout website else about_text
  let prompt := promptText website about
  match api prompt with
  | none => fallbackError website
  | some content =>
    let m := pyStrip content
    if m = [] || m.length < 50 then fallbackShort website else m

-- Shapes of the two fallback messages after `.strip()`.

theorem dtw_punct_tail (X nl : Str) (c : Char) (hnl : dropTrailWs nl = [])
    (hc : isSpace c = false) : dropTrailWs (X ++ ([c] ++ nl)) = X ++ [c] := by
  rw [show X ++ ([c] ++ nl) = (X ++ [c]) ++ nl from by simp]
  rw [dropTrailWs_append, hnl, if_pos rfl, dropTrailWs_append,
    show dropTrailWs [c] = [c] from by simp [dropTrailWs, hc]]
  simp

theorem fallbackError_eq (w : Str) :
    fallbackError w = ("I recently discovered ".toList ++ (w ++ feMid)) ++ [','] := by
  unfold fallbackError fallbackErrorRaw pyStrip
  have hdw : List.dropWhile isSpace
      ("\n        I recently discovered ".toList ++ w ++ feMid ++ [','] ++ "\n        ".toList)
      = ("I recently discovered ".toList ++ (w ++ feMid)) ++ ([','] ++ "\n        ".toList) := by
    simp [List.dropWhile, isSpace]
  rw [hdw]
  exact dtw_punct_tail _ _ ',' (by decide) (by decide)

theorem fallbackShort_eq (w : Str) :
    fallbackShort w = ("I came across ".toList ++ (w ++ fsMid)) ++ ['.'] := by
  unfold fallbackShort fallbackShortRaw pyStrip
  have hdw : List.dropWhile isSpace
      ("\n            I came across ".toList ++ w ++ fsMid ++ ['.'] ++ "\n            ".toList)
      = ("I came across ".toList ++ (w ++ fsMid)) ++ (['.'] ++ "\n            ".toList) := by
    simp [List.dropWhile, isSpace]
  rw [hdw]
  exact dtw_punct_tail _ _ '.' (by decide) (by decide)

theorem fallback_distinct (w : Str) : fallbackError w ≠ fallbackShort w := by
  intro heq
  rw [fallbackError_eq, fallbackShort_eq] at heq
  have h2 : (("I recently discovered ".toList ++ (w ++ feMid)) ++ [',']).get? 2 = some 'r' := by
    rw [show ("I recently discovered ".toList ++ (w ++ feMid)) ++ [',']
      = "I recently discovered ".toList ++ ((w ++ feMid) ++ [',']) from by simp]
    rw [List.get?_append (by decide)]
    rfl
  have h3 : (("I came across ".toList ++ (w ++ fsMid)) ++ ['.']).get? 2 = some 'c' := by
    rw [show ("I came across ".toList ++ (w ++ fsMid)) ++ ['.']
      = "I came across ".toList ++ ((w ++ fsMid) ++ ['.']) from by simp]
    rw [List.get?_append (by decide)]
    rfl
  rw [heq, h3] at h2
  exact absurd h2 (by decide)

/-- C5 counterexample: the exception path and the too-short path return two
*different* canned messages, refuting "the same fixed friendly paragraph ...
in all of these failure cases". -/
theorem generate_same_fallback_cex :
    generate_outreach_message (fun _ => none) "example.com".toList []
      ≠ generate_outreach_message (fun _ => some []) "example.com".toList [] := by
  have h1 : generate_outreach_message (fun _ => none) "example.com".toList []
      = fallbackError "example.com".toList := by
    simp only [generate_outreach_message]
  have h2 : generate_outreach_message (fun _ => some []) "example.com".toList []
      = fallbackShort "example.com".toList := by
    simp only [generate_outreach_message]
    rw [if_pos (by decide)]
  rw [h1, h2]
  exact fallback_distinct "example.com".toList

/-- C5 (amended): the generator never raises (it is a total function); when
the API call fails it returns the fixed exception-path fallback verbatim,
and when the call succeeds but yields an empty or shorter-than-50-character
message it returns the (different) fixed too-short fallback verbatim; both
canned messages mention the domain. -/
theorem generate_fallbacks (api : Str → Option Str) (website about_text : Str) :
    ((∀ p, api p = none) →
      generate_outreach_message api website about_text = fallbackError website) ∧
    (∀ m, (∀ p, api p = some m) → (pyStrip m = [] ∨ (pyStrip m).length < 50) →
      generate_outreach_message api website about_text = fallbackShort website) ∧
    (∃ a b, fallbackError website = a ++ website ++ b) ∧
    (∃ a b, fallbackShort website = a ++ website ++ b) ∧
    fallbackError website ≠ fallbackShort website := by
  refine ⟨?_, ?_, ?_, ?_, fallback_distinct website⟩
  · intro hapi
    show (match api (promptText website (if about_text = [] || about_text.length < 50
        then genericAbout website else about_text)) with
      | none => fallbackError website
      | some content =>
        if pyStrip content = [] || (pyStrip content).length < 50
        then fallbackShort website else pyStrip content) = fallbackError website
    rw [hapi _]
  · intro m hapi hshort
    show (match api (promptText website (if about_text = [] || about_text.length < 50
        then genericAbout website else about_text)) with
      | none => fallbackError website
      | some content =>
        if pyStrip content = [] || (pyStrip content).length < 50
        then fallbackShort website else pyStrip content) = fallbackShort website
    rw [hapi _]
    show (if pyStrip m = [] || (pyStrip m).length < 50
      then fallbackShort website else pyStrip m) = fallbackShort website
    rcases hshort with h | h
    · rw [if_pos (by simp [h])]
    · rw [if_pos (by simp [h])]
  · exact ⟨"I recently discovered ".toList, feMid ++ [','], by rw [fallbackError_eq]; simp⟩
  · exact ⟨"I came across ".toList, fsMid ++ ['.'], by rw [fallbackShort_eq]; simp⟩

/-- Witness for the amended C5 theorem at concrete inputs. -/
theorem generate_fallbacks_witness :
    generate_outreach_message (fun _ => none) "example.com".toList []
      = fallbackError "example.com".toList ∧
    generate_outreach_message (fun _ => some "hi".toList) "example.com".toList []
      = fallbackShort "example.com".toList := by
  constructor
  · exact (generate_fallbacks (fun _ => none) "example.com".toList []).1 (fun p => rfl)
  · exact (generate_fallbacks (fun _ => some "hi".toList) "example.com".toList []).2.1
      "hi".toList (fun p => rfl) (Or.inr (by decide))

-- Page fetcher with retry/backoff.

/-- Modelled from the spec: the retry/backoff Page Fetcher.  The script
under `src/` issues a single GET inside `scrape_website`; the repository's
second script variant (spec §9: "one ... uses retry/backoff while the other
does not") carries the bounded-retry loop specified in §4.2: per attempt
(0-indexed) try the transport; on failure, if attempts remain sleep
`2^attempt` seconds and retry, else record the failure and return a result
carrying no content.  `transport a = some body` models a 2xx response on
attempt `a`; `none` models a transport error, non-2xx status, or timeout. -/
structure FetchResult where
  attempts : Nat
  delays : List Nat
  content : Option Str

/-- Modelled from the spec: the fetch loop, `attempt` the 0-indexed attempt
counter, the second argument the number of attempts still allowed. -/
def fetchLoop (transport : Nat → Option Str) (attempt : Nat) : Nat → FetchResult
  | 0 => ⟨0, [], none⟩
  | n + 1 =>
    match transport attempt with
    | some body => ⟨1, [], some body⟩
    | none =>
      if n = 0 then ⟨1, [], none⟩
      else
        let r := fetchLoop transport (attempt + 1) n
        ⟨r.attempts + 1, 2 ^ attempt :: r.delays, r.content⟩

/-- Modelled from the spec: `fetch(url)` with `maxRetries` attempts. -/
def fetch (transport : Nat → Option Str) (maxRetries : Nat) : FetchResult :=
  fetchLoop transport 0 maxRetries

theorem fetchLoop_all_fail (transport : Nat → Option Str)
    (hfail : ∀ a, transport a = none) :
    ∀ n attempt, 1 ≤ n →
      fetchLoop transport attempt n
        = ⟨n, (List.range (n - 1)).map (fun i => 2 ^ (attempt + i)), none⟩ := by
  intro n
  induction n with
  | zero => intro attempt h; omega
  | succ m ih =>
    intro attempt _
    show (match transport attempt with
      | some body => ⟨1, [], some body⟩
      | none =>
        if m = 0 then ⟨1, [], none⟩
        else
          let r := fetchLoop transport (attempt + 1) m
          ⟨r.attempts + 1, 2 ^ attempt :: r.delays, r.content⟩ : FetchResult)
      = ⟨m + 1, (List.range m).map (fun i => 2 ^ (attempt + i)), none⟩
    rw [hfail attempt]
    cases m with
    | zero => simp
    | succ k =>
      have hk : 1 ≤ k + 1 := by omega
      simp only [Nat.succ_ne_zero, if_false]
      rw [ih (attempt + 1) hk]
      simp only [Nat.add_sub_cancel, FetchResult.mk.injEq]
      refine ⟨trivial, ?_, trivial⟩
      rw [List.range_succ_eq_map, List.map_cons, List.map_map]
      refine congrArg₂ _ (by simp) ?_
      apply List.map_congr_left
      intro i _
      simp only [Function.comp_apply]
      congr 1
      omega

/-- C1: under an always-failing transport the fetcher performs exactly
`maxRetries` attempts, sleeping `2^attempt` seconds after each failed
attempt that is not the last (delays `2^0, 2^1, ...`, strictly increasing),
and returns a result carrying no content.  (Spec-modelled: the retry
variant of the fetcher is not under `src/`.) -/
theorem fetch_all_fail (transport : Nat → Option Str) (maxRetries : Nat)
    (hmr : 1 ≤ maxRetries) (hfail : ∀ a, transport a = none) :
    (fetch transport maxRetries).attempts = maxRetries ∧
    (fetch transport maxRetries).delays
      = (List.range (maxRetries - 1)).map (fun i => 2 ^ i) ∧
    (fetch transport maxRetries).delays.Pairwise (· < ·) ∧
    (fetch transport maxRetries).content = none := by
  have h := fetchLoop_all_fail transport hfail maxRetries 0 hmr
  have hdel : (fetch transport maxRetries).delays
      = (List.range (maxRetries - 1)).map (fun i => 2 ^ i) := by
    rw [fetch, h]
    simp
  refine ⟨by rw [fetch, h], hdel, ?_, by rw [fetch, h]⟩
  rw [hdel]
  refine List.Pairwise.map _ ?_ (List.pairwise_lt_range _)
  intro a b hab
  exact Nat.pow_lt_pow_right (by norm_num) hab

/-- Witness for C1 at `maxRetries = 3`: three attempts, delays `[1, 2]`,
no content. -/
theorem fetch_all_fail_witness :
    (fetch (fun _ => none) 3).attempts = 3 ∧
    (fetch (fun _ => none) 3).delays = [1, 2] ∧
    (fetch (fun _ => none) 3).delays.Pairwise (· < ·) ∧
    (fetch (fun _ => none) 3).content = none := by
  have h := fetch_all_fail (fun _ => none) 3 (by norm_num) (fun a => rfl)
  refine ⟨h.1, ?_, h.2.2.1, h.2.2.2⟩
  rw [h.2.1]
  decide

-- Email extraction: the regex
-- r'\b[A-Za-z0-9._%+-]+@[A-Za-z0-9.-]+\.[A-Z|a-z]{2,}\b'
-- with Python's leftmost, greedy-with-backtracking matching (ASCII).

/-- The regex `\w` class (ASCII), used by the `\b` word boundary. -/
def isWordChar (c : Char) : Bool := c.isAlpha || c.isDigit || c == '_'

/-- The local-part class `[A-Za-z0-9._%+-]`. -/
def classL (c : Char) : Bool :=
  c.isAlpha || c.isDigit || c == '.' || c == '_' || c == '%' || c == '+' || c == '-'

/-- The domain class `[A-Za-z0-9.-]`. -/
def classD (c : Char) : Bool := c.isAlpha || c.isDigit || c == '.' || c == '-'

/-- The top-level class `[A-Z|a-z]` (note: it contains `|` literally). -/
def classT (c : Char) : Bool := c.isAlpha || c == '|'

/-- `\b`: positions outside the string count as non-word. -/
def boundaryAt (s : Str) (i : Nat) : Bool :=
  let a := if i = 0 then false
    else match s.get? (i - 1) with
      | some c => isWordChar c
      | none => false
  let b := match s.get? i with
    | some c => isWordChar c
    | none => false
  a != b

/-- Length of the maximal run of `p`-characters at the front. -/
def runLen (p : Char → Bool) (l : Str) : Nat := (l.takeWhile p).length

/-- `[A-Z|a-z]{2,}\b`: greedy, backtracking from run length `k` down to 2;
returns the end position of the whole match. -/
def tryT (s : Str) (pos : Nat) : Nat → Option Nat
  | 0 => none
  | 1 => none
  | k + 2 =>
    if boundaryAt s (pos + (k + 2)) then some (pos + (k + 2))
    else tryT s pos (k + 1)

/-- `[A-Za-z0-9.-]+\.` followed by the top-level part: greedy on the domain
run, backtracking from `k` characters down to 1. -/
def tryD (s : Str) (p : Nat) : Nat → Option Nat
  | 0 => none
  | k + 1 =>
    if s.get? (p + k + 1) = some '.' then
      match tryT s (p + k + 2) (runLen classT (s.drop (p + k + 2))) with
      | some e => some e
      | none => tryD s p k
    else tryD s p k

/-- `[A-Za-z0-9._%+-]+@` followed by the domain part: greedy on the local
run, backtracking from `k` characters down to 1. -/
def tryL (s : Str) (i : Nat) : Nat → Option Nat
  | 0 => none
  | k + 1 =>
    if s.get? (i + k + 1) = some '@' then
      match tryD s (i + k + 2) (runLen classD (s.drop (i + k + 2))) with
      | some e => some e
      | none => tryL s i k
    else tryL s i k

/-- Attempt the email pattern at position `i`; `some m` returns the matched
substring. -/
def matchAt (s : Str) (i : Nat) : Option Str :=
  if boundaryAt s i then
    match tryL s i (runLen classL (s.drop i)) with
    | some e => some ((s.drop i).take (e - i))
    | none => none
  else none

/-- Scan positions left to right for the first match. -/
def firstMatchFrom (s : Str) : Nat → Nat → Option Str
  | _, 0 => none
  | i, fuel + 1 =>
    match matchAt s i with
    | some m => some m
    | none => firstMatchFrom s (i + 1) fuel

/-- `re.findall(email_pattern, text)[0]` (or `None` when there is no
match): the first, leftmost email-shaped substring. -/
def firstEmail (s : Str) : Option Str := firstMatchFrom s 0 (s.length + 1)

-- First-match lemmas for the scan.

theorem firstMatchFrom_none (s : Str) :
    ∀ fuel i, (∀ j, i ≤ j → j < i + fuel → matchAt s j = none) →
      firstMatchFrom s i fuel = none := by
  intro fuel
  induction fuel with
  | zero => intro i _; rfl
  | succ f ih =>
    intro i h
    show (match matchAt s i with
      | some m => some m
      | none => firstMatchFrom s (i + 1) f) = none
    rw [h i (Nat.le_refl i) (by omega)]
    exact ih (i + 1) (fun j h1 h2 => h j (by omega) (by omega))

theorem firstMatchFrom_some (s m : Str) :
    ∀ fuel i, (∀ j, i ≤ j → j < i + fuel → matchAt s j = none ∨ matchAt s j = some m) →
      (∃ j, i ≤ j ∧ j < i + fuel ∧ matchAt s j = some m) →
      firstMatchFrom s i fuel = some m := by
  intro fuel
  induction fuel with
  | zero =>
    intro i _ hex
    obtain ⟨j, h1, h2, _⟩ := hex
    omega
  | succ f ih =>
    intro i hall hex
    show (match matchAt s i with
      | some m => some m
      | none => firstMatchFrom s (i + 1) f) = some m
    cases hm : matchAt s i with
    | some m' =>
      rcases hall i (Nat.le_refl i) (by omega) with h | h
      · rw [hm] at h
        exact absurd h (by simp)
      · rw [hm] at h
        exact h
    | none =>
      obtain ⟨j, h1, h2, h3⟩ := hex
      have hj : i + 1 ≤ j := by
        rcases Nat.eq_or_lt_of_le h1 with rfl | h
        · rw [hm] at h3
          exact absurd h3 (by simp)
        · omega
      exact ih (i + 1) (fun j h1 h2 => hall j (by omega) (by omega))
        ⟨j, hj, by omega, h3⟩

/-- C8: email extraction never raises (it is a total function); when no
position of the text matches the email pattern it returns `none`, and when
the text contains exactly one email-shaped substring (every matching
position yields the same match `m`, and some position matches) it returns
exactly that substring. -/
theorem firstEmail_spec (s m : Str) :
    ((∀ j < s.length + 1, matchAt s j = none) → firstEmail s = none) ∧
    ((∀ j < s.length + 1, matchAt s j = none ∨ matchAt s j = some m) →
      (∃ i < s.length + 1, matchAt s i = some m) → firstEmail s = some m) := by
  constructor
  · intro h
    exact firstMatchFrom_none s (s.length + 1) 0 (fun j h1 h2 => h j (by omega))
  · intro hall hex
    obtain ⟨i, hi, hm⟩ := hex
    exact firstMatchFrom_some s m (s.length + 1) 0
      (fun j h1 h2 => hall j (by omega)) ⟨i, by omega, by omega, hm⟩

/-- Witness for C8 at concrete texts: one with exactly one email-shaped
substring, one with none. -/
theorem firstEmail_spec_witness :
    firstEmail "mail a@b.co now".toList = some "a@b.co".toList ∧
    firstEmail "no email here".toList = none := by
  constructor
  · exact (firstEmail_spec "mail a@b.co now".toList "a@b.co".toList).2
      (by decide) (by decide)
  · exact (firstEmail_spec "no email here".toList "a@b.co".toList).1 (by decide)

-- The per-URL pipeline of `main`.

/-- An HTTP response as seen by `scrape_website`: `ok` is whether
`raise_for_status()` passes (2xx), `text` the body. -/
structure HttpResp where
  ok : Bool
  text : Str

/-- `scrape_website` from `ai_agent.py`, parameterized by the transport
(`requests.get`; `none` models a raised transport error or timeout) and by
the pure extraction of the `try` body (email regex plus contact-page
probing, phone regex, BeautifulSoup about-text assembly) applied to the
response text; the about-text component is the raw concatenation before
clean-up.  Any raise — transport error or `raise_for_status` on a non-2xx
response — is caught by the `except` and yields `(None, None, None)`. -/
def scrape_website (transport : Str → Option HttpResp)
    (extract : Str → Option Str × Option Str × Str) (url : Str) :
    Option Str × Option Str × Option Str :=
  match transport (clean_url url) with
  | none => (none, none, none)
  | some resp =>
    if resp.ok = false then (none, none, none)
    else
      let epa := extract resp.text
      (epa.1, epa.2.1, some (cleanAboutText epa.2.2))

/-- Python truthiness of an optional string (`None` and `""` are falsy). -/
def pyTruthy (o : Option Str) : Bool :=
  match o with
  | none => false
  | some s => !(s == [])

/-- The per-URL output row built by `main` (keys `Website`, `Domain`,
`Email`, `Phone`, `About Text`, `Outreach Message`). -/
structure OutreachRecord where
  Website : Str
  Domain : Str
  Email : Str
  Phone : Str
  AboutText : Str
  OutreachMessage : Str
deriving DecidableEq

/-- One iteration of `main`'s loop for a string cell: extract the domain,
scrape, count a contact iff email or phone is truthy, generate a message
only when the about-text is truthy, and build the row (empty string for
absent values). -/
def processURL (scrape : Str → Option Str × Option Str × Option Str)
    (gen : Str → Str → Str) (url : Str) : OutreachRecord × Bool :=
  let domain := extract_domain url
  let epa := scrape url
  let found := pyTruthy epa.1 || pyTruthy epa.2.1
  let outreach_message :=
    if pyTruthy epa.2.2 then gen domain (epa.2.2.getD []) else []
  (⟨url, domain, epa.1.getD [], epa.2.1.getD [], epa.2.2.getD [], outreach_message⟩, found)

/-- A cell of the input column: a string URL or a non-string value
(skipped by `main`). -/
inductive InputCell where
  | str (s : Str)
  | nonstr
deriving DecidableEq

/-- `main`'s loop over the input cells: returns the rows, the
`processedCount` and the `contactsFound` accumulators. -/
def runPipeline (scrape : Str → Option Str × Option Str × Option Str)
    (gen : Str → Str → Str) : List InputCell → List OutreachRecord × Nat × Nat
  | [] => ([], 0, 0)
  | InputCell.nonstr :: rest => runPipeline scrape gen rest
  | InputCell.str u :: rest =>
    let pr := processURL scrape gen u
    let rest' := runPipeline scrape gen rest
    (pr.1 :: rest'.1, rest'.2.1 + 1, rest'.2.2 + (if pr.2 then 1 else 0))

theorem pyTruthy_getD (o : Option Str) : pyTruthy o = !(o.getD [] == []) := by
  cases o with
  | none => rfl
  | some s => rfl

/-- C3: every emitted row consists of exactly the six fields Website,
Domain, Email, Phone, AboutText, OutreachMessage (a record is determined by
these projections), and the empty string — not a null marker — stands in
for every absent Email, Phone or AboutText value. -/
theorem outreachRecord_fields (scrape : Str → Option Str × Option Str × Option Str)
    (gen : Str → Str → Str) (u : Str) :
    (processURL scrape gen u).1.Website = u ∧
    (processURL scrape gen u).1.Domain = extract_domain u ∧
    (processURL scrape gen u).1.Email = (scrape u).1.getD [] ∧
    (processURL scrape gen u).1.Phone = (scrape u).2.1.getD [] ∧
    (processURL scrape gen u).1.AboutText = (scrape u).2.2.getD [] ∧
    ((scrape u).1 = none → (processURL scrape gen u).1.Email = []) ∧
    ((scrape u).2.1 = none → (processURL scrape gen u).1.Phone = []) ∧
    ((scrape u).2.2 = none → (processURL scrape gen u).1.AboutText = []) ∧
    (∀ r : OutreachRecord,
      r = ⟨r.Website, r.Domain, r.Email, r.Phone, r.AboutText, r.OutreachMessage⟩) := by
  refine ⟨rfl, rfl, rfl, rfl, rfl, ?_, ?_, ?_, fun r => rfl⟩
  · intro h
    show (scrape u).1.getD [] = []
    rw [h]
    rfl
  · intro h
    show (scrape u).2.1.getD [] = []
    rw [h]
    rfl
  · intro h
    show (scrape u).2.2.getD [] = []
    rw [h]
    rfl

/-- Witness for C3 at a concrete scrape result with all signals absent. -/
theorem outreachRecord_fields_witness :
    (processURL (fun _ => (none, none, none)) (fun _ _ => []) "x".toList).1.Email = [] ∧
    (processURL (fun _ => (none, none, none)) (fun _ _ => []) "x".toList).1.Phone = [] ∧
    (processURL (fun _ => (none, none, none)) (fun _ _ => []) "x".toList).1.AboutText = [] := by
  have h := outreachRecord_fields (fun _ => (none, none, none)) (fun _ _ => []) "x".toList
  exact ⟨h.2.2.2.2.2.1 rfl, h.2.2.2.2.2.2.1 rfl, h.2.2.2.2.2.2.2.1 rfl⟩

/-- C9: a processed URL counts as a contact iff its row's Email or Phone
field is non-empty; `contactsFound` equals the number of rows whose Email
or Phone is non-empty, `contactsFound ≤ processedCount`, and
`processedCount` is the number of rows. -/
theorem contactsFound_spec (scrape : Str → Option Str × Option Str × Option Str)
    (gen : Str → Str → Str) :
    (∀ u, (processURL scrape gen u).2
      = (!((processURL scrape gen u).1.Email == [])
        || !((processURL scrape gen u).1.Phone == []))) ∧
    ∀ items : List InputCell,
      (runPipeline scrape gen items).2.2
        = ((runPipeline scrape gen items).1.filter
            (fun r => !(r.Email == []) || !(r.Phone == []))).length ∧
      (runPipeline scrape gen items).2.2 ≤ (runPipeline scrape gen items).2.1 ∧
      (runPipeline scrape gen items).2.1 = (runPipeline scrape gen items).1.length := by
  have hfound : ∀ u, (processURL scrape gen u).2
      = (!((processURL scrape gen u).1.Email == [])
        || !((processURL scrape gen u).1.Phone == [])) := by
    intro u
    show (pyTruthy (scrape u).1 || pyTruthy (scrape u).2.1) = _
    rw [pyTruthy_getD, pyTruthy_getD]
    rfl
  refine ⟨hfound, ?_⟩
  intro items
  induction items with
  | nil => exact ⟨rfl, Nat.le_refl 0, rfl⟩
  | cons cell rest ih =>
    cases cell with
    | nonstr => exact ih
    | str u =>
      obtain ⟨ih1, ih2, ih3⟩ := ih
      have hr : runPipeline scrape gen (InputCell.str u :: rest)
          = ((processURL scrape gen u).1 :: (runPipeline scrape gen rest).1,
             (runPipeline scrape gen rest).2.1 + 1,
             (runPipeline scrape gen rest).2.2
               + (if (processURL scrape gen u).2 then 1 else 0)) := rfl
      rw [hr]
      simp only [List.filter_cons, List.length_cons]
      rw [← hfound u]
      by_cases hf : (processURL scrape gen u).2 = true
      · rw [if_pos hf, if_pos hf]
        simp only [List.length_cons]
        exact ⟨by omega, by omega, by omega⟩
      · rw [if_neg hf, if_neg hf]
        exact ⟨by omega, by omega, by omega⟩

/-- C2 counterexample: for input `["no-such-domain-xyz.invalid"]` under an
always-failing transport, the emitted row's OutreachMessage is the *empty*
string (the generator is skipped because the about-text is falsy), refuting
the claimed non-empty fallback OutreachMessage. -/
theorem pipeline_fallback_message_cex :
    ((runPipeline (scrape_website (fun _ => none) (fun _ => (none, none, [])))
        (generate_outreach_message (fun _ => none))
        [InputCell.str "no-such-domain-xyz.invalid".toList]).1.map
      (fun r => r.OutreachMessage)) = [[]] := by decide

/-- C2 (amended): for a single URL whose fetch fails on every attempt
(transport raises, or returns a non-2xx response), the pipeline still emits
one row with empty Email, Phone and AboutText and an *empty*
OutreachMessage (the generator is not invoked when no about-text was
extracted), with `processedCount = 1` and `contactsFound = 0`. -/
theorem pipeline_failed_fetch (transport : Str → Option HttpResp)
    (extract : Str → Option Str × Option Str × Str)
    (api : Str → Option Str) (url : Str)
    (hfail : ∀ u, transport u = none ∨ ∃ r, transport u = some r ∧ r.ok = false) :
    runPipeline (scrape_website transport extract)
        (generate_outreach_message api) [InputCell.str url]
      = ([⟨url, extract_domain url, [], [], [], []⟩], 1, 0) := by
  have hscrape : scrape_website transport extract url = (none, none, none) := by
    unfold scrape_website
    rcases hfail (clean_url url) with h | ⟨r, hr, hok⟩
    · rw [h]
    · rw [hr]
      simp [hok]
  have hpr : processURL (scrape_website transport extract)
      (generate_outreach_message api) url
      = (⟨url, extract_domain url, [], [], [], []⟩, false) := by
    unfold processURL
    rw [hscrape]
    rfl
  show ((processURL (scrape_website transport extract)
        (generate_outreach_message api) url).1 :: [],
      0 + 1,
      0 + if (processURL (scrape_website transport extract)
        (generate_outreach_message api) url).2 then 1 else 0)
    = ([⟨url, extract_domain url, [], [], [], []⟩], 1, 0)
  rw [hpr]
  rfl

/-- Witness for the amended C2 theorem at the spec's scenario input. -/
theorem pipeline_failed_fetch_witness :
    runPipeline (scrape_website (fun _ => none) (fun _ => (none, none, [])))
        (generate_outreach_message (fun _ => none))
        [InputCell.str "no-such-domain-xyz.invalid".toList]
      = ([⟨"no-such-domain-xyz.invalid".toList,
          "no-such-domain-xyz.invalid".toList, [], [], [], []⟩], 1, 0) := by
  have h := pipeline_failed_fetch (fun _ => none) (fun _ => (none, none, []))
    (fun _ => none) "no-such-domain-xyz.invalid".toList (fun u => Or.inl rfl)
  rw [h]
  rw [show extract_domain "no-such-domain-xyz.invalid".toList
    = "no-such-domain-xyz.invalid".toList from by decide]

/-- Witness for C7 at the spec's example: `example.com/path` with and
without the scheme. -/
theorem extract_domain_scheme_agnostic_witness :
    extract_domain "example.com/path".toList = "example.com".toList ∧
    extract_domain "https://example.com/path".toList = "example.com".toList :=
  extract_domain_scheme_agnostic "example.com".toList "path".toList
    (by decide) (by decide) (by decide)
